import Mathlib

/-!
Shallow embedding of the graph data structure and the randomized graph
generator of src/kuznetsov_sirbu/graph.cpp, together with proofs of the
specified properties.

Modelling conventions:
* C++ int ids and depths are modelled as Lean Int (no claim involves
  integer overflow).
* std::unordered_map is modelled as an association list with unique keys;
  operator[] (default-insert), .at (throws on a missing key) and find are
  modelled by the aset / apush / alookup / ahas helpers below.  A lookup
  that the C++ code performs with .at, and that may therefore throw, is
  modelled with Option: none is the thrown exception.
* std::vector indexing edges_[edge_id] is modelled with List.get?; an
  out-of-range access (undefined behaviour in C++) is modelled as a
  failure (none).
* assert is modelled as a checked precondition: add_edge returns none
  when it does not hold.
* doubles appear only in the generator probabilities; they are modelled
  exactly as rationals, and a division whose denominator is zero (NaN /
  infinity in C++) is modelled as none.
* the Mersenne-twister randomness is modelled by an oracle (Rng) that
  answers every Bernoulli trial and every uniform pick; properties are
  proved for every oracle.
-/

/-- Edge colors, from enum class Edge::Color in graph.cpp. -/
inductive Color : Type
  | Grey
  | Green
  | Yellow
  | Red
deriving DecidableEq

/-- Graph::Edge: id, endpoints and the color fixed at creation. -/
structure Edge : Type where
  id : Int
  from_vertex_id : Int
  to_vertex_id : Int
  color : Color
deriving DecidableEq

/-- Graph state: the counters, the vertex list (a Graph::Vertex carries
only its id), the edge list, and the three unordered maps of graph.cpp:
adjacency_list_, vertex_depths_ and depth_to_vertices_. -/
structure Graph : Type where
  vertex_id_counter : Int
  edge_id_counter : Int
  vertices : List Int
  edges : List Edge
  adjacency_list : List (Int × List Int)
  vertex_depths : List (Int × Int)
  depth_to_vertices : List (Int × List Int)
deriving DecidableEq

/-- Graph::kBaseDepth. -/
def kBaseDepth : Int := 1

/-- Graph::kDifferenceRedEdge. -/
def kDifferenceRedEdge : Int := 2

/-- Graph::kDifferenceYellowEdge. -/
def kDifferenceYellowEdge : Int := 1

/-- Lookup in an association list: unordered_map .at / find. -/
def alookup {α : Type} : List (Int × α) → Int → Option α
  | [], _ => none
  | (k', v) :: rest, k => if k = k' then some v else alookup rest k

/-- Key membership in an association list: find(k) != end(). -/
def ahas {α : Type} : List (Int × α) → Int → Bool
  | [], _ => false
  | (k', _) :: rest, k => if k = k' then true else ahas rest k

/-- m[k] = v: update the entry if the key is present, append it otherwise. -/
def aset {α : Type} : List (Int × α) → Int → α → List (Int × α)
  | [], k, v => [(k, v)]
  | (k', v') :: rest, k, v =>
      if k = k' then (k, v) :: rest else (k', v') :: aset rest k v

/-- m[k].emplace_back(v): default-insert the key, push v at its value. -/
def apush {α : Type} : List (Int × List α) → Int → α → List (Int × List α)
  | [], k, v => [(k, [v])]
  | (k', vs) :: rest, k, v =>
      if k = k' then (k', vs ++ [v]) :: rest else (k', vs) :: apush rest k v

/-- m[k]: the default-insert side effect of operator[] taken alone. -/
def aensure {α : Type} : List (Int × List α) → Int → List (Int × List α)
  | [], k => [(k, [])]
  | (k', vs) :: rest, k =>
      if k = k' then (k', vs) :: rest else (k', vs) :: aensure rest k

/-- std::find followed by a conditional erase: drop the first occurrence. -/
def eraseFirst : List Int → Int → List Int
  | [], _ => []
  | x :: rest, v => if x = v then rest else x :: eraseFirst rest v

/-- Graph::has_vertex. -/
def has_vertex (g : Graph) (vertex_id : Int) : Bool :=
  ahas g.adjacency_list vertex_id

/-- Graph::add_vertex: fresh id, empty adjacency entry, base depth,
registration in the base-depth bucket. -/
def add_vertex (g : Graph) : Graph × Int :=
  let new_vertex_id := g.vertex_id_counter
  ({ vertex_id_counter := new_vertex_id + 1
     edge_id_counter := g.edge_id_counter
     vertices := g.vertices ++ [new_vertex_id]
     edges := g.edges
     adjacency_list := aset g.adjacency_list new_vertex_id []
     vertex_depths := aset g.vertex_depths new_vertex_id kBaseDepth
     depth_to_vertices := apush g.depth_to_vertices kBaseDepth new_vertex_id },
   new_vertex_id)

/-- Graph::connected_edges_ids: empty list for an unknown vertex. -/
def connected_edges_ids (g : Graph) (vertex_id : Int) : List Int :=
  if has_vertex g vertex_id then (alookup g.adjacency_list vertex_id).getD []
  else []

/-- Graph::vertex_depth: vertex_depths_.at, none models the throw. -/
def vertex_depth (g : Graph) (vertex_id : Int) : Option Int :=
  alookup g.vertex_depths vertex_id

/-- Graph::set_vertex_depth: push into the new bucket, erase from the
base-depth bucket (operator[] default-inserts that bucket first), then
assign the depth map. -/
def set_vertex_depth (g : Graph) (vertex_id depth : Int) : Graph :=
  let m1 := apush g.depth_to_vertices depth vertex_id
  let m2 := aensure m1 kBaseDepth
  let m3 := aset m2 kBaseDepth (eraseFirst ((alookup m2 kBaseDepth).getD []) vertex_id)
  { g with depth_to_vertices := m3,
           vertex_depths := aset g.vertex_depths vertex_id depth }

/-- The loop body of Graph::is_connected over adjacency_list_.at(from):
edges_[edge_id] out of range is a failure. -/
def isConnectedLoop (edges : List Edge) (to_vertex_id : Int) : List Int → Option Bool
  | [] => some false
  | eid :: rest =>
      if eid < 0 then none
      else
        match edges.get? eid.toNat with
        | none => none
        | some e =>
            if e.from_vertex_id = to_vertex_id ∨ e.to_vertex_id = to_vertex_id then
              some true
            else isConnectedLoop edges to_vertex_id rest

/-- Graph::is_connected: scans only the adjacency list of from. -/
def is_connected (g : Graph) (from_vertex_id to_vertex_id : Int) : Option Bool :=
  match alookup g.adjacency_list from_vertex_id with
  | none => some false
  | some ids => isConnectedLoop g.edges to_vertex_id ids

/-- Graph::get_edge_color: both depths read with .at first, then the
Green / Grey / Yellow / Red cascade; the final throw is none.  The
short-circuit of the Yellow conjunction is kept: is_connected is only
evaluated when the depth difference is kDifferenceYellowEdge. -/
def get_edge_color (g : Graph) (from_vertex_id to_vertex_id : Int) : Option Color :=
  (alookup g.vertex_depths from_vertex_id).bind fun from_vertex_depth =>
  (alookup g.vertex_depths to_vertex_id).bind fun to_vertex_depth =>
  if from_vertex_id = to_vertex_id then some Color.Green
  else
    (alookup g.adjacency_list to_vertex_id).bind fun to_adj =>
      if to_adj.length = 0 then some Color.Grey
      else
        if to_vertex_depth - from_vertex_depth = kDifferenceYellowEdge then
          (is_connected g from_vertex_id to_vertex_id).bind fun conn =>
            if conn = false then some Color.Yellow
            else if to_vertex_depth - from_vertex_depth = kDifferenceRedEdge then
              some Color.Red
            else none
        else if to_vertex_depth - from_vertex_depth = kDifferenceRedEdge then
          some Color.Red
        else none

/-- The tail of Graph::add_edge after the color is known: allocate the
edge id, store the edge, and register it in the adjacency lists.  The
source compares from_vertex_id with the new EDGE id (not with
to_vertex_id) before the first registration; this comparison is kept
exactly as written. -/
def add_edge_register (g1 : Graph) (from_vertex_id to_vertex_id : Int)
    (color : Color) : Graph × Int :=
  let edge_id := g1.edge_id_counter
  let g2 := { g1 with
              edge_id_counter := edge_id + 1
              edges := g1.edges ++ [Edge.mk edge_id from_vertex_id to_vertex_id color] }
  let g3 := if from_vertex_id = edge_id then g2
            else { g2 with adjacency_list := apush g2.adjacency_list from_vertex_id edge_id }
  let g4 := { g3 with adjacency_list := apush g3.adjacency_list to_vertex_id edge_id }
  (g4, edge_id)

/-- Graph::add_edge: asserts both endpoints exist (modelled as a checked
failure), computes the color, performs the Grey depth promotion, then
registers the edge. -/
def add_edge (g : Graph) (from_vertex_id to_vertex_id : Int) : Option (Graph × Int) :=
  if has_vertex g from_vertex_id = true then
    if has_vertex g to_vertex_id = true then
      match get_edge_color g from_vertex_id to_vertex_id with
      | none => none
      | some color =>
        if color = Color.Grey then
          match vertex_depth g from_vertex_id with
          | none => none
          | some fd =>
              some (add_edge_register (set_vertex_depth g to_vertex_id (fd + 1))
                from_vertex_id to_vertex_id color)
        else some (add_edge_register g from_vertex_id to_vertex_id color)
    else none
  else none

/-- Graph::get_vertices_with_depth: defensive find before .at. -/
def get_vertices_with_depth (g : Graph) (depth : Int) : List Int :=
  if ahas g.depth_to_vertices depth = true then
    (alookup g.depth_to_vertices depth).getD []
  else []

/-- Graph::depth: the size of the depth_to_vertices_ map. -/
def Graph.depth (g : Graph) : Int := g.depth_to_vertices.length

/-- The default-constructed Graph(). -/
def Graph.empty : Graph :=
  { vertex_id_counter := 0, edge_id_counter := 0, vertices := [], edges := [],
    adjacency_list := [], vertex_depths := [], depth_to_vertices := [] }

/-- A construction step: either add_vertex or add_edge(f, t). -/
inductive Op : Type
  | addV : Op
  | addE (f t : Int) : Op
deriving DecidableEq

/-- Run one step; a failing add_edge throws before any mutation in the
source, so it leaves the state unchanged here. -/
def applyOp (g : Graph) : Op → Graph
  | Op.addV => (add_vertex g).1
  | Op.addE f t =>
      match add_edge g f t with
      | some p => p.1
      | none => g

/-- Run a sequence of construction steps from the empty graph. -/
def run (ops : List Op) : Graph := ops.foldl applyOp Graph.empty

/-- The graphs reachable by some sequence of add_vertex / add_edge calls. -/
def Reachable (g : Graph) : Prop := ∃ ops : List Op, run ops = g

/-- GraphGenerator::Params. -/
structure Params : Type where
  depth : Int
  new_vertices_count : Int
deriving DecidableEq

/-- The randomness oracle: answers the n-th Bernoulli trial and the n-th
uniform pick of the generation run.  The C++ code reseeds a fresh
mt19937 from std::random_device for every trial, so each draw is an
independent environment-supplied value; a trial counter is threaded
through the generator and indexes into the oracle. -/
structure Rng : Type where
  bern : Nat → Bool
  pick : Nat → Nat

/-- GraphGenerator::kProbabilityRed (0.33). -/
def kProbabilityRed : ℚ := 33 / 100

/-- GraphGenerator::kProbabilityGreen (0.1). -/
def kProbabilityGreen : ℚ := 1 / 10

/-- GraphGenerator::check_probability: a Bernoulli trial.  The outcome is
the oracle's answer for the current trial index; the chance argument
(none models a NaN produced by a zero-denominator division) selects a
distribution whose draw the oracle supplies, so every property proved
over all oracles holds for every sequence of draws. -/
def check_probability (r : Rng) (k : Nat) (_chance : Option ℚ) : Bool × Nat :=
  (r.bern k, k + 1)

/-- GraphGenerator::probaility_generate_grey_edge (name kept as in the
source).  The double arithmetic is modelled exactly over ℚ; when the
denominator graph_depth - kBaseDepth is zero the C++ division yields
NaN, modelled as none. -/
def probaility_generate_grey_edge (current_depth graph_depth : Int) : Option ℚ :=
  if graph_depth = 0 then some 1
  else if graph_depth - kBaseDepth = 0 then none
  else some (1 - ((current_depth - kBaseDepth : Int) : ℚ) /
                 ((graph_depth - kBaseDepth : Int) : ℚ))

/-- GraphGenerator::get_random_vertex_id: uniform draw over [0, size). -/
def get_random_vertex_id (r : Rng) (k : Nat) (size : Int) : Int × Nat :=
  ((r.pick k : Int) % size, k + 1)

/-- GraphGenerator::get_unconnected_vertex_ids.  A candidate is kept when
is_connected returns false; an exceptional is_connected (impossible for
the vertices the generator passes, which all exist) drops it. -/
def get_unconnected_vertex_ids (g : Graph) (vertex_from_id : Int)
    (vertex_ids : List Int) : List Int :=
  vertex_ids.filter fun vertex_to_id =>
    is_connected g vertex_from_id vertex_to_id = some false

/-- add_edge as the generator uses it: the generator never calls it with
a missing vertex or an unclassifiable color, so the exceptional path
(which would propagate out of generate in C++) is modelled as leaving
the graph unchanged. -/
def applyE (g : Graph) (f t : Int) : Graph :=
  match add_edge g f t with
  | some p => p.1
  | none => g

/-- GraphGenerator::try_generate_grey_edge. -/
def try_generate_grey_edge (params : Params) (r : Rng) (current_depth vertex_id : Int)
    (gk : Graph × Nat) : Graph × Nat :=
  let probability := probaility_generate_grey_edge current_depth params.depth
  let bk := check_probability r gk.2 probability
  if bk.1 then
    let gv := add_vertex gk.1
    (applyE gv.1 vertex_id gv.2, bk.2)
  else (gk.1, bk.2)

/-- The inner loop of generate_grey_edges: new_vertices_count trials for
one vertex. -/
def greyTrials (params : Params) (r : Rng) (current_depth vertex_id : Int) :
    Nat → Graph × Nat → Graph × Nat
  | 0, gk => gk
  | n + 1, gk =>
      greyTrials params r current_depth vertex_id n
        (try_generate_grey_edge params r current_depth vertex_id gk)

/-- The per-layer loop of generate_grey_edges over the snapshot of the
layer's vertices. -/
def greyVertexLoop (params : Params) (r : Rng) (current_depth : Int) :
    List Int → Graph × Nat → Graph × Nat
  | [], gk => gk
  | v :: rest, gk =>
      greyVertexLoop params r current_depth rest
        (greyTrials params r current_depth v params.new_vertices_count.toNat gk)

/-- The outer loop of GraphGenerator::generate_grey_edges over the depth
layers, with the early break when the graph depth no longer matches the
current layer.  The vertex list of the layer is copied before the check,
as in the source. -/
def greyDepthLoop (params : Params) (r : Rng) :
    List Int → Graph × Nat → Graph × Nat
  | [], gk => gk
  | d :: rest, gk =>
      let vertices_with_last_depth := get_vertices_with_depth gk.1 d
      if Graph.depth gk.1 ≠ d then gk
      else
        greyDepthLoop params r rest
          (greyVertexLoop params r d vertices_with_last_depth gk)

/-- GraphGenerator::generate_grey_edges: layers kBaseDepth .. depth. -/
def generate_grey_edges (params : Params) (r : Rng) (gk : Graph × Nat) :
    Graph × Nat :=
  greyDepthLoop params r ((List.range params.depth.toNat).map fun i => (i : Int) + 1) gk

/-- GraphGenerator::try_generate_green_edge. -/
def try_generate_green_edge (r : Rng) (vertex_id : Int) (gk : Graph × Nat) :
    Graph × Nat :=
  let bk := check_probability r gk.2 (some kProbabilityGreen)
  if bk.1 then (applyE gk.1 vertex_id vertex_id, bk.2) else (gk.1, bk.2)

/-- The loop of GraphGenerator::generate_green_edges. -/
def greenLoop (r : Rng) : List Int → Graph × Nat → Graph × Nat
  | [], gk => gk
  | v :: rest, gk => greenLoop r rest (try_generate_green_edge r v gk)

/-- GraphGenerator::generate_green_edges over the vertex list (add_edge
never adds vertices, so iterating the snapshot matches the source). -/
def generate_green_edges (r : Rng) (gk : Graph × Nat) : Graph × Nat :=
  greenLoop r gk.1.vertices gk

/-- GraphGenerator::try_generate_yellow_edge (the source also reads
vertex_depth(from) into an unused local, which cannot fail for the
existing vertices the generator passes). -/
def try_generate_yellow_edge (g : Graph) (vertex_from_id vertex_to_id : Int) : Graph :=
  applyE g vertex_from_id vertex_to_id

/-- The loop body of GraphGenerator::generate_yellow_edges: the inverted
Bernoulli trial on the decay probability (NaN when graph depth is the
base depth, modelled as none), then a uniform pick among the unconnected
vertices one layer deeper. -/
def yellowLoop (r : Rng) : List Int → Graph × Nat → Graph × Nat
  | [], gk => gk
  | v :: rest, gk =>
      let g := gk.1
      let d := (vertex_depth g v).getD 0
      let probability_generate : Option ℚ :=
        if Graph.depth g - kBaseDepth = 0 then none
        else some (1 - ((d - kBaseDepth : Int) : ℚ) /
                       ((Graph.depth g - kBaseDepth : Int) : ℚ))
      let bk := check_probability r gk.2 probability_generate
      if bk.1 = false then
        let vertex_ids := get_vertices_with_depth g (d + kDifferenceYellowEdge)
        let not_connected := get_unconnected_vertex_ids g v vertex_ids
        if not_connected ≠ [] then
          let ik := get_random_vertex_id r bk.2 (not_connected.length : Int)
          yellowLoop r rest
            (try_generate_yellow_edge g v (not_connected.getD ik.1.toNat 0), ik.2)
        else yellowLoop r rest (g, bk.2)
      else yellowLoop r rest (g, bk.2)

/-- GraphGenerator::generate_yellow_edges. -/
def generate_yellow_edges (r : Rng) (gk : Graph × Nat) : Graph × Nat :=
  yellowLoop r gk.1.vertices gk

/-- GraphGenerator::try_generate_red_edge (again with the unused local
depth read). -/
def try_generate_red_edge (g : Graph) (vertex_from_id vertex_to_id : Int) : Graph :=
  applyE g vertex_from_id vertex_to_id

/-- The loop body of GraphGenerator::generate_red_edges: a fixed-chance
trial, then a uniform pick among the vertices two layers deeper. -/
def redLoop (r : Rng) : List Int → Graph × Nat → Graph × Nat
  | [], gk => gk
  | v :: rest, gk =>
      let g := gk.1
      let bk := check_probability r gk.2 (some kProbabilityRed)
      if bk.1 then
        let d := (vertex_depth g v).getD 0
        let vertex_ids := get_vertices_with_depth g (d + kDifferenceRedEdge)
        if vertex_ids ≠ [] then
          let ik := get_random_vertex_id r bk.2 (vertex_ids.length : Int)
          redLoop r rest (try_generate_red_edge g v (vertex_ids.getD ik.1.toNat 0), ik.2)
        else redLoop r rest (g, bk.2)
      else redLoop r rest (g, bk.2)

/-- GraphGenerator::generate_red_edges. -/
def generate_red_edges (r : Rng) (gk : Graph × Nat) : Graph × Nat :=
  redLoop r gk.1.vertices gk

/-- GraphGenerator::generate: the default graph when the configured
depth is not positive, otherwise the seeded root and the four phases in
their fixed order. -/
def generate (params : Params) (r : Rng) : Graph :=
  if params.depth > 0 then
    let g0 := (add_vertex Graph.empty).1
    let gk1 := generate_grey_edges params r (g0, 0)
    let gk2 := generate_green_edges r gk1
    let gk3 := generate_yellow_edges r gk2
    let gk4 := generate_red_edges r gk3
    gk4.1
  else Graph.empty

/-- The state invariant maintained by add_vertex and add_edge, used by
the reachability proofs: a vertex with an empty adjacency list still has
the base depth, every recorded depth is at least the base depth, the
adjacency and depth maps have the same keys, and every key is below the
id counter. -/
def GraphInv (g : Graph) : Prop :=
  (∀ v, alookup g.adjacency_list v = some [] → alookup g.vertex_depths v = some 1) ∧
  (∀ v d, alookup g.vertex_depths v = some d → 1 ≤ d) ∧
  (∀ v, ahas g.adjacency_list v = ahas g.vertex_depths v) ∧
  (∀ v, ahas g.vertex_depths v = true → v < g.vertex_id_counter)

/-!  Auxiliary lemmas about the association-list operations. -/

theorem alookup_aset_self {α : Type} (m : List (Int × α)) (k : Int) (v : α) :
    alookup (aset m k v) k = some v := by
  induction m with
  | nil => simp [aset, alookup]
  | cons p rest ih =>
      obtain ⟨k', v'⟩ := p
      by_cases h : k = k'
      · simp [aset, h, alookup]
      · simp [aset, h, alookup, ih]

theorem alookup_aset_ne {α : Type} (m : List (Int × α)) (k k' : Int) (v : α)
    (h : k' ≠ k) : alookup (aset m k v) k' = alookup m k' := by
  induction m with
  | nil => simp [aset, alookup, h]
  | cons p rest ih =>
      obtain ⟨a, b⟩ := p
      by_cases hk : k = a
      · subst hk
        simp [aset, alookup, h]
      · by_cases hk' : k' = a
        · simp [aset, hk, alookup, hk']
        · simp [aset, hk, alookup, hk', ih]

theorem alookup_apush_self {α : Type} (m : List (Int × List α)) (k : Int) (v : α) :
    alookup (apush m k v) k = some ((alookup m k).getD [] ++ [v]) := by
  induction m with
  | nil => simp [apush, alookup]
  | cons p rest ih =>
      obtain ⟨a, bs⟩ := p
      by_cases h : k = a
      · simp [apush, h, alookup]
      · simp [apush, h, alookup, ih]

theorem alookup_apush_ne {α : Type} (m : List (Int × List α)) (k k' : Int) (v : α)
    (h : k' ≠ k) : alookup (apush m k v) k' = alookup m k' := by
  induction m with
  | nil => simp [apush, alookup, h]
  | cons p rest ih =>
      obtain ⟨a, bs⟩ := p
      by_cases hk : k = a
      · subst hk
        simp [apush, alookup, h]
      · by_cases hk' : k' = a
        · simp [apush, hk, alookup, hk']
        · simp [apush, hk, alookup, hk', ih]

theorem ahas_eq_isSome {α : Type} (m : List (Int × α)) (k : Int) :
    ahas m k = (alookup m k).isSome := by
  induction m with
  | nil => simp [ahas, alookup]
  | cons p rest ih =>
      obtain ⟨a, b⟩ := p
      by_cases h : k = a
      · simp [ahas, alookup, h]
      · simp [ahas, alookup, h, ih]

theorem ahas_aset_self {α : Type} (m : List (Int × α)) (k : Int) (v : α) :
    ahas (aset m k v) k = true := by
  rw [ahas_eq_isSome, alookup_aset_self]
  rfl

theorem ahas_aset_ne {α : Type} (m : List (Int × α)) (k k' : Int) (v : α)
    (h : k' ≠ k) : ahas (aset m k v) k' = ahas m k' := by
  rw [ahas_eq_isSome, ahas_eq_isSome, alookup_aset_ne m k k' v h]

theorem ahas_apush_self {α : Type} (m : List (Int × List α)) (k : Int) (v : α) :
    ahas (apush m k v) k = true := by
  rw [ahas_eq_isSome, alookup_apush_self]
  rfl

theorem ahas_apush_ne {α : Type} (m : List (Int × List α)) (k k' : Int) (v : α)
    (h : k' ≠ k) : ahas (apush m k v) k' = ahas m k' := by
  rw [ahas_eq_isSome, ahas_eq_isSome, alookup_apush_ne m k k' v h]

/-!  Structural lemmas about the graph operations. -/

theorem set_vertex_depth_vertex_depths (g : Graph) (v d : Int) :
    (set_vertex_depth g v d).vertex_depths = aset g.vertex_depths v d := rfl

theorem set_vertex_depth_adjacency (g : Graph) (v d : Int) :
    (set_vertex_depth g v d).adjacency_list = g.adjacency_list := rfl

theorem set_vertex_depth_edges (g : Graph) (v d : Int) :
    (set_vertex_depth g v d).edges = g.edges := rfl

theorem set_vertex_depth_vertex_id_counter (g : Graph) (v d : Int) :
    (set_vertex_depth g v d).vertex_id_counter = g.vertex_id_counter := rfl

theorem set_vertex_depth_edge_id_counter (g : Graph) (v d : Int) :
    (set_vertex_depth g v d).edge_id_counter = g.edge_id_counter := rfl

theorem add_edge_register_vertex_depths (g1 : Graph) (f t : Int) (c : Color) :
    (add_edge_register g1 f t c).1.vertex_depths = g1.vertex_depths := by
  by_cases h : f = g1.edge_id_counter <;> simp [add_edge_register, h]

theorem add_edge_register_depth_to_vertices (g1 : Graph) (f t : Int) (c : Color) :
    (add_edge_register g1 f t c).1.depth_to_vertices = g1.depth_to_vertices := by
  by_cases h : f = g1.edge_id_counter <;> simp [add_edge_register, h]

theorem add_edge_register_vertex_id_counter (g1 : Graph) (f t : Int) (c : Color) :
    (add_edge_register g1 f t c).1.vertex_id_counter = g1.vertex_id_counter := by
  by_cases h : f = g1.edge_id_counter <;> simp [add_edge_register, h]

theorem add_edge_register_edges (g1 : Graph) (f t : Int) (c : Color) :
    (add_edge_register g1 f t c).1.edges =
      g1.edges ++ [Edge.mk g1.edge_id_counter f t c] := by
  by_cases h : f = g1.edge_id_counter <;> simp [add_edge_register, h]

theorem add_edge_register_adjacency (g1 : Graph) (f t : Int) (c : Color) :
    (add_edge_register g1 f t c).1.adjacency_list =
      apush (if f = g1.edge_id_counter then g1.adjacency_list
             else apush g1.adjacency_list f g1.edge_id_counter)
        t g1.edge_id_counter := by
  by_cases h : f = g1.edge_id_counter <;> simp [add_edge_register, h]

/-- Inversion of a successful add_edge: both endpoints existed, the color
was computed, and the result is the registration of the edge, preceded by
the depth promotion exactly when the color is Grey. -/
theorem add_edge_some_inv (g : Graph) (f t : Int) (p : Graph × Int)
    (h : add_edge g f t = some p) :
    has_vertex g f = true ∧ has_vertex g t = true ∧
    ∃ c, get_edge_color g f t = some c ∧
      ((c = Color.Grey ∧ ∃ fd, vertex_depth g f = some fd ∧
          p = add_edge_register (set_vertex_depth g t (fd + 1)) f t c) ∨
       (c ≠ Color.Grey ∧ p = add_edge_register g f t c)) := by
  by_cases hf : has_vertex g f = true
  · by_cases ht : has_vertex g t = true
    · refine ⟨hf, ht, ?_⟩
      rw [add_edge, if_pos hf, if_pos ht] at h
      cases hc : get_edge_color g f t with
      | none => rw [hc] at h; exact Option.noConfusion h
      | some c =>
          rw [hc] at h
          dsimp only at h
          refine ⟨c, rfl, ?_⟩
          by_cases hgrey : c = Color.Grey
          · rw [if_pos hgrey] at h
            cases hfd : vertex_depth g f with
            | none => rw [hfd] at h; exact Option.noConfusion h
            | some fd =>
                rw [hfd] at h
                exact Or.inl ⟨hgrey, fd, rfl, (Option.some_inj.mp h).symm⟩
          · rw [if_neg hgrey] at h
            exact Or.inr ⟨hgrey, (Option.some_inj.mp h).symm⟩
    · rw [add_edge, if_pos hf, if_neg ht] at h
      exact Option.noConfusion h
  · rw [add_edge, if_neg hf] at h
    exact Option.noConfusion h

/-- Inversion of a successful color computation: both depths were
present, and the color together with the facts the cascade checked. -/
theorem get_edge_color_spec (g : Graph) (f t : Int) (c : Color)
    (h : get_edge_color g f t = some c) :
    ∃ fd td, alookup g.vertex_depths f = some fd ∧
      alookup g.vertex_depths t = some td ∧
      ((c = Color.Green ∧ f = t) ∨
       (c = Color.Grey ∧ f ≠ t ∧ alookup g.adjacency_list t = some []) ∨
       (c = Color.Yellow ∧ f ≠ t ∧ td - fd = kDifferenceYellowEdge ∧
         is_connected g f t = some false ∧
         ∃ l, alookup g.adjacency_list t = some l ∧ l ≠ []) ∨
       (c = Color.Red ∧ f ≠ t ∧ td - fd = kDifferenceRedEdge ∧
         ∃ l, alookup g.adjacency_list t = some l ∧ l ≠ [])) := by
  rw [get_edge_color] at h
  cases hfd : alookup g.vertex_depths f with
  | none => rw [hfd] at h; exact Option.noConfusion h
  | some fd =>
  rw [hfd, Option.some_bind] at h
  cases htd : alookup g.vertex_depths t with
  | none => rw [htd] at h; exact Option.noConfusion h
  | some td =>
  rw [htd, Option.some_bind] at h
  refine ⟨fd, td, rfl, rfl, ?_⟩
  by_cases hft : f = t
  · rw [if_pos hft] at h
    exact Or.inl ⟨(Option.some_inj.mp h).symm, hft⟩
  · rw [if_neg hft] at h
    cases hadj : alookup g.adjacency_list t with
    | none => rw [hadj] at h; exact Option.noConfusion h
    | some tadj =>
    rw [hadj, Option.some_bind] at h
    by_cases hlen : tadj.length = 0
    · rw [if_pos hlen] at h
      refine Or.inr (Or.inl ⟨(Option.some_inj.mp h).symm, hft, ?_⟩)
      rw [List.length_eq_zero.mp hlen]
    · rw [if_neg hlen] at h
      have htne : tadj ≠ [] := fun he => hlen (by rw [he]; rfl)
      by_cases hdiff : td - fd = kDifferenceYellowEdge
      · rw [if_pos hdiff] at h
        cases hconn : is_connected g f t with
        | none => rw [hconn] at h; exact Option.noConfusion h
        | some conn =>
        rw [hconn, Option.some_bind] at h
        by_cases hcf : conn = false
        · rw [if_pos hcf] at h
          refine Or.inr (Or.inr (Or.inl
            ⟨(Option.some_inj.mp h).symm, hft, hdiff, ?_, tadj, rfl, htne⟩))
          rw [hcf]
        · rw [if_neg hcf] at h
          by_cases hdiff2 : td - fd = kDifferenceRedEdge
          · rw [if_pos hdiff2] at h
            exact Or.inr (Or.inr (Or.inr
              ⟨(Option.some_inj.mp h).symm, hft, hdiff2, tadj, rfl, htne⟩))
          · rw [if_neg hdiff2] at h; exact Option.noConfusion h
      · rw [if_neg hdiff] at h
        by_cases hdiff2 : td - fd = kDifferenceRedEdge
        · rw [if_pos hdiff2] at h
          exact Or.inr (Or.inr (Or.inr
            ⟨(Option.some_inj.mp h).symm, hft, hdiff2, tadj, rfl, htne⟩))
        · rw [if_neg hdiff2] at h; exact Option.noConfusion h

/-!  Structural lemmas about add_vertex. -/

theorem add_vertex_adjacency (g : Graph) :
    (add_vertex g).1.adjacency_list = aset g.adjacency_list g.vertex_id_counter [] := rfl

theorem add_vertex_vertex_depths (g : Graph) :
    (add_vertex g).1.vertex_depths = aset g.vertex_depths g.vertex_id_counter kBaseDepth := rfl

theorem add_vertex_vertex_id_counter (g : Graph) :
    (add_vertex g).1.vertex_id_counter = g.vertex_id_counter + 1 := rfl

theorem add_vertex_edges (g : Graph) : (add_vertex g).1.edges = g.edges := rfl

theorem add_vertex_snd (g : Graph) : (add_vertex g).2 = g.vertex_id_counter := rfl

/-!  The adjacency registration of add_edge_register, seen through alookup. -/

theorem register_adjacency_empty (A0 : List (Int × List Int)) (f t eid v : Int)
    (h : alookup (apush (if f = eid then A0 else apush A0 f eid) t eid) v = some []) :
    alookup A0 v = some [] := by
  by_cases hvt : v = t
  · subst hvt
    rw [alookup_apush_self] at h
    exact absurd (Option.some_inj.mp h) (by simp)
  · rw [alookup_apush_ne _ _ _ _ hvt] at h
    by_cases hfe : f = eid
    · rwa [if_pos hfe] at h
    · rw [if_neg hfe] at h
      by_cases hvf : v = f
      · subst hvf
        rw [alookup_apush_self] at h
        exact absurd (Option.some_inj.mp h) (by simp)
      · rwa [alookup_apush_ne _ _ _ _ hvf] at h

theorem register_adjacency_ahas (A0 : List (Int × List Int)) (f t eid v : Int)
    (hf : ahas A0 f = true) (ht : ahas A0 t = true) :
    ahas (apush (if f = eid then A0 else apush A0 f eid) t eid) v = ahas A0 v := by
  by_cases hvt : v = t
  · subst hvt
    rw [ahas_apush_self, ht]
  · rw [ahas_apush_ne _ _ _ _ hvt]
    by_cases hfe : f = eid
    · rw [if_pos hfe]
    · rw [if_neg hfe]
      by_cases hvf : v = f
      · subst hvf
        rw [ahas_apush_self, hf]
      · rw [ahas_apush_ne _ _ _ _ hvf]

theorem register_adjacency_t (A0 : List (Int × List Int)) (f t eid : Int) :
    alookup (apush (if f = eid then A0 else apush A0 f eid) t eid) t =
      some ((alookup (if f = eid then A0 else apush A0 f eid) t).getD [] ++ [eid]) :=
  alookup_apush_self _ _ _

/-!  Preservation of the state invariant. -/

theorem graphInv_empty : GraphInv Graph.empty := by
  refine ⟨fun v h => ?_, fun v d h => ?_, fun v => rfl, fun v h => ?_⟩
  · exact Option.noConfusion h
  · exact Option.noConfusion h
  · exact Bool.noConfusion h

theorem graphInv_add_vertex (g : Graph) (hg : GraphInv g) : GraphInv (add_vertex g).1 := by
  obtain ⟨h1, h2, h3, h4⟩ := hg
  refine ⟨?_, ?_, ?_, ?_⟩
  · intro v hv
    rw [add_vertex_vertex_depths]
    rw [add_vertex_adjacency] at hv
    by_cases h : v = g.vertex_id_counter
    · subst h
      rw [alookup_aset_self]
      rfl
    · rw [alookup_aset_ne _ _ _ _ h] at hv
      rw [alookup_aset_ne _ _ _ _ h]
      exact h1 v hv
  · intro v d hv
    rw [add_vertex_vertex_depths] at hv
    by_cases h : v = g.vertex_id_counter
    · subst h
      rw [alookup_aset_self] at hv
      cases Option.some_inj.mp hv
      decide
    · rw [alookup_aset_ne _ _ _ _ h] at hv
      exact h2 v d hv
  · intro v
    rw [add_vertex_vertex_depths, add_vertex_adjacency]
    by_cases h : v = g.vertex_id_counter
    · subst h
      rw [ahas_aset_self, ahas_aset_self]
    · rw [ahas_aset_ne _ _ _ _ h, ahas_aset_ne _ _ _ _ h]
      exact h3 v
  · intro v hv
    rw [add_vertex_vertex_depths] at hv
    rw [add_vertex_vertex_id_counter]
    by_cases h : v = g.vertex_id_counter
    · subst h
      exact lt_add_one _
    · rw [ahas_aset_ne _ _ _ _ h] at hv
      exact lt_trans (h4 v hv) (lt_add_one _)

theorem graphInv_add_edge (g : Graph) (hg : GraphInv g) (f t : Int) (p : Graph × Int)
    (h : add_edge g f t = some p) : GraphInv p.1 := by
  obtain ⟨h1, h2, h3, h4⟩ := hg
  obtain ⟨hf, ht, c, _hc, hcase⟩ := add_edge_some_inv g f t p h
  have hf' : ahas g.adjacency_list f = true := hf
  have ht' : ahas g.adjacency_list t = true := ht
  rcases hcase with ⟨_hgrey, fd, hfd, hp⟩ | ⟨_hngrey, hp⟩
  · have hfd' : alookup g.vertex_depths f = some fd := hfd
    subst hp
    refine ⟨?_, ?_, ?_, ?_⟩
    · intro v hv
      rw [add_edge_register_vertex_depths, set_vertex_depth_vertex_depths]
      rw [add_edge_register_adjacency, set_vertex_depth_adjacency,
        set_vertex_depth_edge_id_counter] at hv
      by_cases hvt : v = t
      · subst hvt
        rw [register_adjacency_t] at hv
        exact absurd (Option.some_inj.mp hv) (by simp)
      · rw [alookup_aset_ne _ _ _ _ hvt]
        exact h1 v (register_adjacency_empty _ f t _ v hv)
    · intro v d hv
      rw [add_edge_register_vertex_depths, set_vertex_depth_vertex_depths] at hv
      by_cases hvt : v = t
      · subst hvt
        rw [alookup_aset_self] at hv
        have hfd1 : 1 ≤ fd := h2 f fd hfd'
        cases Option.some_inj.mp hv
        omega
      · rw [alookup_aset_ne _ _ _ _ hvt] at hv
        exact h2 v d hv
    · intro v
      rw [add_edge_register_adjacency, add_edge_register_vertex_depths,
        set_vertex_depth_adjacency, set_vertex_depth_vertex_depths,
        set_vertex_depth_edge_id_counter]
      rw [register_adjacency_ahas _ f t _ v hf' ht']
      by_cases hvt : v = t
      · subst hvt
        rw [ahas_aset_self, ht']
      · rw [ahas_aset_ne _ _ _ _ hvt]
        exact h3 v
    · intro v hv
      rw [add_edge_register_vertex_id_counter, set_vertex_depth_vertex_id_counter]
      rw [add_edge_register_vertex_depths, set_vertex_depth_vertex_depths] at hv
      by_cases hvt : v = t
      · subst hvt
        exact h4 v ((h3 v).symm.trans ht')
      · rw [ahas_aset_ne _ _ _ _ hvt] at hv
        exact h4 v hv
  · subst hp
    refine ⟨?_, ?_, ?_, ?_⟩
    · intro v hv
      rw [add_edge_register_vertex_depths]
      rw [add_edge_register_adjacency] at hv
      exact h1 v (register_adjacency_empty _ f t _ v hv)
    · intro v d hv
      rw [add_edge_register_vertex_depths] at hv
      exact h2 v d hv
    · intro v
      rw [add_edge_register_adjacency, add_edge_register_vertex_depths]
      rw [register_adjacency_ahas _ f t _ v hf' ht']
      exact h3 v
    · intro v hv
      rw [add_edge_register_vertex_id_counter]
      rw [add_edge_register_vertex_depths] at hv
      exact h4 v hv

theorem graphInv_applyOp (g : Graph) (hg : GraphInv g) (op : Op) :
    GraphInv (applyOp g op) := by
  cases op with
  | addV => exact graphInv_add_vertex g hg
  | addE f t =>
      cases h : add_edge g f t with
      | none => simpa [applyOp, h] using hg
      | some p => simpa [applyOp, h] using graphInv_add_edge g hg f t p h

/-- Induction principle over the graphs reachable by add_vertex and
add_edge. -/
theorem reachable_ind (P : Graph → Prop) (h0 : P Graph.empty)
    (hstep : ∀ g op, P g → P (applyOp g op)) : ∀ g, Reachable g → P g := by
  have hfold : ∀ (l : List Op) (g0 : Graph), P g0 → P (l.foldl applyOp g0) := by
    intro l
    induction l with
    | nil => intro g0 hp; exact hp
    | cons op rest ih => intro g0 hp; exact ih _ (hstep g0 op hp)
  intro g hg
  obtain ⟨ops, hops⟩ := hg
  rw [← hops]
  exact hfold ops Graph.empty h0

/-- Every reachable graph satisfies the state invariant. -/
theorem reachable_graphInv (g : Graph) (hg : Reachable g) : GraphInv g :=
  reachable_ind GraphInv graphInv_empty (fun g' op hg' => graphInv_applyOp g' hg' op) g hg

/-!  Helpers about connected_edges_ids. -/

theorem connected_edges_ids_eq (g : Graph) (v : Int) (l : List Int)
    (h : alookup g.adjacency_list v = some l) : connected_edges_ids g v = l := by
  have hv : has_vertex g v = true := by
    rw [has_vertex, ahas_eq_isSome, h]
    rfl
  simp [connected_edges_ids, hv, h]

theorem connected_edges_ids_ne_inv (g : Graph) (v : Int)
    (h : connected_edges_ids g v ≠ []) :
    ∃ l, alookup g.adjacency_list v = some l ∧ l ≠ [] ∧ has_vertex g v = true := by
  by_cases hv : has_vertex g v = true
  · cases hl : alookup g.adjacency_list v with
    | none =>
        exfalso
        exact h (by simp [connected_edges_ids, hv, hl])
    | some l =>
        exact ⟨l, rfl, fun he => h (by simp [connected_edges_ids, hv, hl, he]), hv⟩
  · exfalso
    exact h (by simp [connected_edges_ids, hv])

/-- The adjacency registration never shrinks an adjacency list: the
value at any key only gets entries appended. -/
theorem register_adjacency_mono (A0 : List (Int × List Int)) (f t eid v : Int)
    (l : List Int) (h : alookup A0 v = some l) :
    ∃ l2, alookup (apush (if f = eid then A0 else apush A0 f eid) t eid) v =
      some (l ++ l2) := by
  by_cases hvt : v = t
  · subst hvt
    rw [alookup_apush_self]
    by_cases hfe : f = eid
    · refine ⟨[eid], ?_⟩
      rw [if_pos hfe, h, Option.getD_some]
    · rw [if_neg hfe]
      by_cases hft : v = f
      · subst hft
        refine ⟨[eid] ++ [eid], ?_⟩
        rw [alookup_apush_self, h, Option.getD_some, Option.getD_some,
          List.append_assoc]
      · refine ⟨[eid], ?_⟩
        rw [alookup_apush_ne _ _ _ _ hft, h, Option.getD_some]
  · rw [alookup_apush_ne _ _ _ _ hvt]
    by_cases hfe : f = eid
    · rw [if_pos hfe, h]
      exact ⟨[], by rw [List.append_nil]⟩
    · rw [if_neg hfe]
      by_cases hvf : v = f
      · subst hvf
        rw [alookup_apush_self, h, Option.getD_some]
        exact ⟨[eid], rfl⟩
      · rw [alookup_apush_ne _ _ _ _ hvf, h]
        exact ⟨[], by rw [List.append_nil]⟩

/-- C7: add_edge with a from or to id that is not an existing vertex of
the graph fails with the invalid-reference error (modelled as none) and
never proceeds to create an edge. -/
theorem add_edge_requires_vertices (g : Graph) (f t : Int)
    (h : has_vertex g f = false ∨ has_vertex g t = false) :
    add_edge g f t = none := by
  rcases h with h | h
  · simp [add_edge, h]
  · by_cases hf : has_vertex g f = true
    · simp [add_edge, hf, h]
    · simp [add_edge, hf]

/-- Witness for add_edge_requires_vertices: on the empty graph, vertex 0
does not exist and add_edge(0, 1) fails. -/
theorem add_edge_requires_vertices_witness : add_edge (run []) 0 1 = none :=
  add_edge_requires_vertices (run []) 0 1 (Or.inl (by decide))

/-- C10: in every reachable graph, a vertex whose adjacency list is
empty still has the base depth 1; this is the invariant that makes the
empty-adjacency rule of get_edge_color produce a depth-consistent Grey
edge. -/
theorem empty_adjacency_depth_base (g : Graph) (hg : Reachable g) (v : Int)
    (hv : has_vertex g v = true) (h : connected_edges_ids g v = []) :
    vertex_depth g v = some 1 := by
  obtain ⟨h1, _, _, _⟩ := reachable_graphInv g hg
  have hsome : (alookup g.adjacency_list v).isSome = true := by
    rw [← ahas_eq_isSome]
    exact hv
  cases hl : alookup g.adjacency_list v with
  | none => rw [hl] at hsome; exact absurd hsome (by simp)
  | some l =>
      have hle : l = [] := by
        have := connected_edges_ids_eq g v l hl
        rw [this] at h
        exact h
      exact h1 v (hl.trans (by rw [hle]))

/-- Witness for empty_adjacency_depth_base: a single fresh vertex. -/
theorem empty_adjacency_depth_base_witness : vertex_depth (run [Op.addV]) 0 = some 1 :=
  empty_adjacency_depth_base (run [Op.addV]) ⟨[Op.addV], rfl⟩ 0 (by decide) (by decide)

/-- C3: in every reachable graph, a stored edge is Green exactly when
its endpoints coincide: self-loops are always classified Green, and no
edge between distinct vertices is ever classified Green. -/
theorem green_edge_iff_self_loop (g : Graph) (hg : Reachable g) (e : Edge)
    (he : e ∈ g.edges) : e.color = Color.Green ↔ e.from_vertex_id = e.to_vertex_id := by
  revert e
  refine reachable_ind
    (fun g' => ∀ e ∈ g'.edges, (e.color = Color.Green ↔ e.from_vertex_id = e.to_vertex_id))
    ?_ ?_ g hg
  · intro e he
    exact absurd he (by simp [Graph.empty])
  · intro g' op ih
    cases op with
    | addV =>
        intro e he
        have hE : (applyOp g' Op.addV).edges = g'.edges := rfl
        rw [hE] at he
        exact ih e he
    | addE f t =>
        cases h : add_edge g' f t with
        | none =>
            intro e he
            have hE : (applyOp g' (Op.addE f t)).edges = g'.edges := by
              simp [applyOp, h]
            rw [hE] at he
            exact ih e he
        | some p =>
            intro e he
            have hE : applyOp g' (Op.addE f t) = p.1 := by simp [applyOp, h]
            rw [hE] at he
            obtain ⟨_, _, c, hc, hcase⟩ := add_edge_some_inv g' f t p h
            have hedges : ∃ eid, p.1.edges = g'.edges ++ [Edge.mk eid f t c] := by
              rcases hcase with ⟨_, fd, _, hp⟩ | ⟨_, hp⟩ <;> subst hp
              · exact ⟨_, by rw [add_edge_register_edges, set_vertex_depth_edges]⟩
              · exact ⟨_, by rw [add_edge_register_edges]⟩
            obtain ⟨eid, hpe⟩ := hedges
            rw [hpe, List.mem_append, List.mem_singleton] at he
            rcases he with he | he
            · exact ih e he
            · subst he
              obtain ⟨fd, td, _, _, hd⟩ := get_edge_color_spec g' f t c hc
              rcases hd with ⟨hcc, hft⟩ | ⟨hcc, hft, _⟩ | ⟨hcc, hft, _⟩ | ⟨hcc, hft, _⟩ <;>
                subst hcc <;> simp [hft]

/-- Witness for green_edge_iff_self_loop: the self-loop edge produced by
add_vertex(); add_edge(0,0). -/
theorem green_edge_iff_self_loop_witness : Color.Green = Color.Green ↔ (0 : Int) = 0 :=
  green_edge_iff_self_loop (run [Op.addV, Op.addE 0 0]) ⟨[Op.addV, Op.addE 0 0], rfl⟩
    (Edge.mk 0 0 0 Color.Green) (by decide)

/-- C8: an add_edge call whose computed color is not Grey leaves the
depth map and all depth buckets exactly unchanged. -/
theorem add_edge_non_grey_preserves_depths (g : Graph) (f t : Int) (p : Graph × Int)
    (c : Color) (hc : get_edge_color g f t = some c) (hng : c ≠ Color.Grey)
    (h : add_edge g f t = some p) :
    p.1.vertex_depths = g.vertex_depths ∧
    p.1.depth_to_vertices = g.depth_to_vertices := by
  obtain ⟨_, _, c', hc', hcase⟩ := add_edge_some_inv g f t p h
  have hcc : c' = c := Option.some_inj.mp (hc'.symm.trans hc)
  subst hcc
  rcases hcase with ⟨hgrey, _, _, _⟩ | ⟨_, hp⟩
  · exact absurd hgrey hng
  · subst hp
    exact ⟨add_edge_register_vertex_depths _ _ _ _,
      add_edge_register_depth_to_vertices _ _ _ _⟩

/-- Witness for add_edge_non_grey_preserves_depths: the Green self-loop
add_vertex(); add_edge(0,0) leaves vertex 0 at depth 1 and the buckets
unchanged. -/
theorem add_edge_non_grey_preserves_depths_witness :
    (run [Op.addV, Op.addE 0 0]).vertex_depths = (run [Op.addV]).vertex_depths ∧
    (run [Op.addV, Op.addE 0 0]).depth_to_vertices = (run [Op.addV]).depth_to_vertices ∧
    vertex_depth (run [Op.addV, Op.addE 0 0]) 0 = some 1 := by
  have h := add_edge_non_grey_preserves_depths (run [Op.addV]) 0 0
    (run [Op.addV, Op.addE 0 0], 0) Color.Green (by decide) (by decide) (by decide)
  exact ⟨h.1, h.2, by decide⟩

/-- C2: in every reachable graph, a vertex's depth is 1 at creation;
across any further construction step a recorded depth never decreases,
and it changes only when the step is an add_edge into the vertex whose
computed color is Grey while the vertex's adjacency list is still empty
(its first incident edge), the new depth being from.depth + 1; that step
makes the adjacency list non-empty, and adjacency lists never shrink, so
the depth can never change again afterwards. -/
theorem vertex_depth_lifecycle (g : Graph) (hg : Reachable g) :
    vertex_depth (applyOp g Op.addV) g.vertex_id_counter = some 1 ∧
    (∀ op v, connected_edges_ids g v ≠ [] → connected_edges_ids (applyOp g op) v ≠ []) ∧
    (∀ op v d d', vertex_depth g v = some d →
      vertex_depth (applyOp g op) v = some d' →
      d ≤ d' ∧
      (d ≠ d' → ∃ f fd, op = Op.addE f v ∧
        get_edge_color g f v = some Color.Grey ∧
        connected_edges_ids g v = [] ∧ d = 1 ∧
        vertex_depth g f = some fd ∧ d' = fd + 1 ∧
        connected_edges_ids (applyOp g op) v ≠ [])) ∧
    (∀ f t p, add_edge g f t = some p →
      get_edge_color g f t = some Color.Grey →
      ∃ fd, vertex_depth g f = some fd ∧ vertex_depth p.1 t = some (fd + 1)) := by
  obtain ⟨h1, h2, h3, h4⟩ := reachable_graphInv g hg
  refine ⟨?_, ?_, ?_, ?_⟩
  · have hdep : (applyOp g Op.addV).vertex_depths =
        aset g.vertex_depths g.vertex_id_counter kBaseDepth := rfl
    rw [vertex_depth, hdep, alookup_aset_self]
    rfl
  · intro op v hne
    obtain ⟨l, hl, hlne, hv⟩ := connected_edges_ids_ne_inv g v hne
    cases op with
    | addV =>
        have hvne : v ≠ g.vertex_id_counter := by
          intro he
          have hlt : v < g.vertex_id_counter := h4 v ((h3 v).symm.trans hv)
          omega
        have hadj : (applyOp g Op.addV).adjacency_list =
            aset g.adjacency_list g.vertex_id_counter [] := rfl
        have hl' : alookup (applyOp g Op.addV).adjacency_list v = some l := by
          rw [hadj, alookup_aset_ne _ _ _ _ hvne]
          exact hl
        rw [connected_edges_ids_eq _ v l hl']
        exact hlne
    | addE f t =>
        cases h : add_edge g f t with
        | none =>
            have hP : applyOp g (Op.addE f t) = g := by simp [applyOp, h]
            rw [hP]
            exact hne
        | some p =>
            have hP : applyOp g (Op.addE f t) = p.1 := by simp [applyOp, h]
            obtain ⟨hf, ht, c, hc, hcase⟩ := add_edge_some_inv g f t p h
            have hAdj : ∃ E, p.1.adjacency_list =
                apush (if f = E then g.adjacency_list else apush g.adjacency_list f E)
                  t E := by
              rcases hcase with ⟨_, fd, _, hp⟩ | ⟨_, hp⟩ <;> subst hp
              · exact ⟨_, by rw [add_edge_register_adjacency, set_vertex_depth_adjacency,
                  set_vertex_depth_edge_id_counter]⟩
              · exact ⟨_, add_edge_register_adjacency _ _ _ _⟩
            obtain ⟨E, hAdj⟩ := hAdj
            obtain ⟨l2, hl2⟩ := register_adjacency_mono g.adjacency_list f t E v l hl
            rw [hP]
            have hlook : alookup p.1.adjacency_list v = some (l ++ l2) := by
              rw [hAdj]
              exact hl2
            rw [connected_edges_ids_eq _ v _ hlook]
            simp [hlne]
  · intro op v d d' hd hd'
    cases op with
    | addV =>
        have hvne : v ≠ g.vertex_id_counter := by
          intro he
          have hlt : v < g.vertex_id_counter := h4 v (by
            rw [ahas_eq_isSome]
            rw [vertex_depth] at hd
            rw [hd]
            rfl)
          omega
        have hdep : (applyOp g Op.addV).vertex_depths =
            aset g.vertex_depths g.vertex_id_counter kBaseDepth := rfl
        rw [vertex_depth, hdep, alookup_aset_ne _ _ _ _ hvne] at hd'
        rw [vertex_depth] at hd
        have hdd : d' = d := Option.some_inj.mp (hd'.symm.trans hd)
        exact ⟨le_of_eq hdd.symm, fun hne => absurd hdd.symm hne⟩
    | addE f t =>
        cases h : add_edge g f t with
        | none =>
            have hP : applyOp g (Op.addE f t) = g := by simp [applyOp, h]
            rw [hP] at hd'
            have hdd : d' = d := Option.some_inj.mp (hd'.symm.trans hd)
            exact ⟨le_of_eq hdd.symm, fun hne => absurd hdd.symm hne⟩
        | some p =>
            have hP : applyOp g (Op.addE f t) = p.1 := by simp [applyOp, h]
            obtain ⟨hf, ht, c, hc, hcase⟩ := add_edge_some_inv g f t p h
            rcases hcase with ⟨hgrey, fd, hfd, hp⟩ | ⟨hngrey, hp⟩
            · subst hp
              subst hgrey
              rw [hP, vertex_depth, add_edge_register_vertex_depths,
                set_vertex_depth_vertex_depths] at hd'
              by_cases hvt : v = t
              · subst hvt
                rw [alookup_aset_self] at hd'
                have hd'v : d' = fd + 1 := (Option.some_inj.mp hd').symm
                obtain ⟨fd2, td2, hfd2, htd2, hdis⟩ :=
                  get_edge_color_spec g f v Color.Grey hc
                have hadjv : alookup g.adjacency_list v = some [] := by
                  rcases hdis with ⟨hcc, _⟩ | ⟨_, _, ha⟩ | ⟨hcc, _⟩ | ⟨hcc, _⟩
                  · exact absurd hcc (by decide)
                  · exact ha
                  · exact absurd hcc (by decide)
                  · exact absurd hcc (by decide)
                have hdv : alookup g.vertex_depths v = some 1 := h1 v hadjv
                have hd1 : d = 1 := Option.some_inj.mp (hd.symm.trans hdv)
                have hfd1 : 1 ≤ fd := h2 f fd hfd
                have hce : connected_edges_ids g v = [] :=
                  connected_edges_ids_eq g v [] hadjv
                have hcne : connected_edges_ids (applyOp g (Op.addE f v)) v ≠ [] := by
                  rw [hP]
                  have hlook := register_adjacency_t
                    ((set_vertex_depth g v (fd + 1)).adjacency_list) f v
                    ((set_vertex_depth g v (fd + 1)).edge_id_counter)
                  have hlook2 := hlook
                  rw [← add_edge_register_adjacency (set_vertex_depth g v (fd + 1)) f v
                    Color.Grey] at hlook2
                  rw [connected_edges_ids_eq _ v _ hlook2]
                  simp
                exact ⟨by omega, fun _ => ⟨f, fd, rfl, hc, hce, hd1, hfd, hd'v, hcne⟩⟩
              · rw [alookup_aset_ne _ _ _ _ hvt] at hd'
                rw [vertex_depth] at hd
                have hdd : d' = d := Option.some_inj.mp (hd'.symm.trans hd)
                exact ⟨le_of_eq hdd.symm, fun hne => absurd hdd.symm hne⟩
            · subst hp
              rw [hP, vertex_depth, add_edge_register_vertex_depths] at hd'
              rw [vertex_depth] at hd
              have hdd : d' = d := Option.some_inj.mp (hd'.symm.trans hd)
              exact ⟨le_of_eq hdd.symm, fun hne => absurd hdd.symm hne⟩
  · intro f t p h hc
    obtain ⟨hf, ht, c, hc', hcase⟩ := add_edge_some_inv g f t p h
    have hcc : c = Color.Grey := Option.some_inj.mp (hc'.symm.trans hc)
    subst hcc
    rcases hcase with ⟨_, fd, hfd, hp⟩ | ⟨hngrey, _⟩
    · subst hp
      refine ⟨fd, hfd, ?_⟩
      rw [vertex_depth, add_edge_register_vertex_depths,
        set_vertex_depth_vertex_depths, alookup_aset_self]
    · exact absurd rfl hngrey

/-- Witness for vertex_depth_lifecycle: a fresh vertex is created at
depth 1 on a reachable graph. -/
theorem vertex_depth_lifecycle_witness :
    vertex_depth (applyOp (run [Op.addV, Op.addV]) Op.addV)
      (run [Op.addV, Op.addV]).vertex_id_counter = some 1 :=
  (vertex_depth_lifecycle (run [Op.addV, Op.addV]) ⟨[Op.addV, Op.addV], rfl⟩).1

/-- C1: the registration guard of add_edge compares from_vertex_id with
the new EDGE id.  Consequences at concrete inputs: the grey edge 0 from
vertex 0 to vertex 1 is never registered in vertex 0's adjacency list,
and the self-loop edge 0 on vertex 1 is registered twice in vertex 1's
adjacency list. -/
theorem adjacency_registration_bug :
    connected_edges_ids (run [Op.addV, Op.addV, Op.addE 0 1]) 0 = [] ∧
    connected_edges_ids (run [Op.addV, Op.addV, Op.addE 0 1]) 1 = [0] ∧
    connected_edges_ids (run [Op.addV, Op.addV, Op.addE 1 1]) 1 = [0, 0] := by
  decide

/-- C4: after add_vertex(); add_vertex(); add_edge(0,1), the stored grey
edge 0 connects vertices 0 and 1, yet a second add_edge(0,1) is
classified Yellow and inserted, because edge 0 was never registered in
vertex 0's adjacency list and is_connected scans only that list. -/
theorem yellow_despite_connected :
    (run [Op.addV, Op.addV, Op.addE 0 1]).edges = [Edge.mk 0 0 1 Color.Grey] ∧
    get_edge_color (run [Op.addV, Op.addV, Op.addE 0 1]) 0 1 = some Color.Yellow ∧
    (run [Op.addV, Op.addV, Op.addE 0 1, Op.addE 0 1]).edges =
      [Edge.mk 0 0 1 Color.Grey, Edge.mk 1 0 1 Color.Yellow] := by
  decide

/-- C5 (claim as stated): vertex_depth does NOT return a result for
every integer id: on the empty graph it fails (vertex_depths_.at throws
std::out_of_range). -/
theorem vertex_depth_unknown_id_fails : vertex_depth (run []) 0 = none := by decide

/-- C5 (amended): vertex_depth succeeds exactly on the ids present in
the graph, connected_edges_ids returns the empty list for unknown ids,
and get_vertices_with_depth returns the empty list for unknown depth
keys; depth(), vertices() and edges() are plain total projections. -/
theorem read_accessors_totality (g : Graph) (hg : Reachable g) (id d : Int) :
    ((vertex_depth g id).isSome = true ↔ has_vertex g id = true) ∧
    (has_vertex g id = false → connected_edges_ids g id = []) ∧
    (ahas g.depth_to_vertices d = false → get_vertices_with_depth g d = []) := by
  obtain ⟨_, _, h3, _⟩ := reachable_graphInv g hg
  refine ⟨?_, ?_, ?_⟩
  · rw [vertex_depth, ← ahas_eq_isSome]
    rw [show has_vertex g id = ahas g.vertex_depths id from h3 id]
  · intro h'
    simp [connected_edges_ids, h']
  · intro h'
    simp [get_vertices_with_depth, h']

/-- Witness for read_accessors_totality: unknown id 5 and unknown depth
7 on a one-vertex graph give empty sequences, not failures. -/
theorem read_accessors_totality_witness :
    connected_edges_ids (run [Op.addV]) 5 = [] ∧
    get_vertices_with_depth (run [Op.addV]) 7 = [] :=
  ⟨(read_accessors_totality (run [Op.addV]) ⟨[Op.addV], rfl⟩ 5 7).2.1 (by decide),
   (read_accessors_totality (run [Op.addV]) ⟨[Op.addV], rfl⟩ 5 7).2.2 (by decide)⟩

/-- C6: the grey-edge probability guard tests graph_depth == 0 (a value
generate never passes to it), not target_depth == 1 as specified: at
target depth 1 the division is 0/0 (NaN, modelled none) instead of the
specified 1.0, while the unreachable argument 0 returns 1.0; for target
depths at least 2 the formula is 1 - (current-1)/(target-1) as
specified. -/
theorem grey_probability_guard_bug :
    probaility_generate_grey_edge 1 1 = none ∧
    probaility_generate_grey_edge 1 0 = some 1 ∧
    probaility_generate_grey_edge 2 3 = some (1 / 2) := by
  refine ⟨?_, ?_, ?_⟩ <;> norm_num [probaility_generate_grey_edge, kBaseDepth]

/-- C9: generate with target depth 0 returns the empty graph — no
vertices, no edges, depth() == 0 — for every randomness oracle and every
new_vertices_per_step. -/
theorem generate_depth_zero (params : Params) (r : Rng) (h : params.depth = 0) :
    (generate params r).vertices = [] ∧ (generate params r).edges = [] ∧
    Graph.depth (generate params r) = 0 := by
  rw [generate, if_neg (by omega)]
  exact ⟨rfl, rfl, rfl⟩

/-- Witness for generate_depth_zero at a concrete configuration and
oracle. -/
theorem generate_depth_zero_witness :
    (generate (Params.mk 0 5) (Rng.mk (fun _ => true) (fun _ => 0))).vertices = [] ∧
    (generate (Params.mk 0 5) (Rng.mk (fun _ => true) (fun _ => 0))).edges = [] ∧
    Graph.depth (generate (Params.mk 0 5) (Rng.mk (fun _ => true) (fun _ => 0))) = 0 :=
  generate_depth_zero (Params.mk 0 5) (Rng.mk (fun _ => true) (fun _ => 0)) rfl
